import Mathlib

/-!
Verification of the shared card-draw session core of the labCards
repository (`src/app.py`).

The Python module keeps a single mutable session consisting of per-suit
shuffled pools of catalog indexes (`suit_to_indexes`), the sequence of drawn
indexes (`drawn_indexes`), the map from suit to the position where it was
drawn (`suit_drawn_pos`), the one-time redraw flags (`redraw_used`) and the
progression pointer (`current_step`).  Socket handlers `on_draw`,
`on_redraw` and `on_reset` mutate this state and emit the derived projection
(`current_state`) either to the requesting client (`emit`) or to every
connected client (`socketio.emit`).

The embedding below translates those globals into a `GameState` record and
each handler into a pure function `GameState → GameState × List Scope`,
where the `Scope` list records which state emissions the handler performs.
`random.shuffle` is modelled by an explicit `shuffle` parameter together
with the hypothesis that it permutes its input.  Python's `list.pop()`
(pop from the end) is modelled with `List.getLast?` / `List.dropLast`, and
`drawn_indexes[pos] = v` with `List.set`.
-/

/-- A card record as loaded from `cards.json` / `cards.tsv`: six string
fields, identity is the catalog index. -/
structure Card where
  Category1 : String
  Category2 : String
  Name : String
  Text : String
  ShortText : String
  URL : String
deriving DecidableEq, Repr, Inhabited

/-- `SUIT_ORDER` from app.py: the fixed ordered list of suits. -/
def SUIT_ORDER : List String := ["TOUCHSTONE", "WORKSHOP", "TOOL", "PROTOCOL", "PLATFORM"]

/-- `SUIT_SET` from app.py (`set(SUIT_ORDER)`); membership tests only. -/
def SUIT_SET : List String := SUIT_ORDER

/-- `ELIGIBLE_REDRAW` from app.py: suits with a one-time redraw. -/
def ELIGIBLE_REDRAW : List String := ["WORKSHOP", "TOOL", "PROTOCOL"]

/-- Python's `str.strip()`: drop leading and trailing whitespace.  Defined
on the character list so that it evaluates by kernel reduction. -/
def pyStrip (s : String) : String :=
  ⟨((s.data.dropWhile Char.isWhitespace).reverse.dropWhile Char.isWhitespace).reverse⟩

/-- Python's `str.upper()` (for the ASCII labels this program uses):
upper-case every character. -/
def pyUpper (s : String) : String :=
  ⟨s.data.map Char.toUpper⟩

/-- Category resolution for one card (the body of the loop in
`build_suits`): `use = c1 if c1 in SUIT_SET else (c2 if c2 in SUIT_SET else '')`
with `c1`/`c2` the stripped upper-cased category labels; `none` models the
empty string (card left unassigned). -/
def resolveSuit (card : Card) : Option String :=
  let c1 := pyUpper (pyStrip card.Category1)
  let c2 := pyUpper (pyStrip card.Category2)
  if c1 ∈ SUIT_SET then some c1 else if c2 ∈ SUIT_SET then some c2 else none

/-- Resolved suit of the catalog entry at index `i` (out-of-range gives `none`). -/
def resolveAt (cards : List Card) (i : Nat) : Option String :=
  (cards.get? i).bind resolveSuit

/-- The per-suit index list built by the `enumerate(all_cards)` loop of
`build_suits`, before shuffling: all catalog indexes, in increasing order,
whose resolved suit is `s`. -/
def suitIndexes (cards : List Card) (s : String) : List Nat :=
  (List.range cards.length).filter (fun i => decide (resolveAt cards i = some s))

/-- The mutable module-level session state of app.py.  Python dicts are
modelled as total functions (`dict.get` with its default). -/
structure GameState where
  suit_to_indexes : String → List Nat
  drawn_indexes : List Nat
  suit_drawn_pos : String → Option Nat
  redraw_used : String → Bool
  current_step : Nat

/-- The module-level initial values of the globals (before `bootstrap`). -/
def initState : GameState :=
  { suit_to_indexes := fun _ => []
    drawn_indexes := []
    suit_drawn_pos := fun _ => none
    redraw_used := fun _ => false
    current_step := 0 }

/-- `build_suits()` from app.py: partition the catalog into per-suit pools,
shuffle each pool, and reset the draw progression.  The shuffling of
`random.shuffle` is abstracted by the `shuffle` argument (used pointwise on
each suit's list); theorems assume it permutes its input. -/
def build_suits (shuffle : String → List Nat → List Nat) (cards : List Card) : GameState :=
  { suit_to_indexes := fun s => if s ∈ SUIT_SET then shuffle s (suitIndexes cards s) else []
    drawn_indexes := []
    suit_drawn_pos := fun _ => none
    redraw_used := fun _ => false
    current_step := 0 }

/-- The suits at or after the current step whose pool is non-empty: the
list counted by `remaining_total`. -/
def activeSuits (st : GameState) : List String :=
  (SUIT_ORDER.drop st.current_step).filter (fun s => !(st.suit_to_indexes s).isEmpty)

/-- `remaining_total()` from app.py: number of suits at or after
`current_step` that still have at least one card available. -/
def remaining_total (st : GameState) : Nat :=
  (activeSuits st).length

/-- `total_targets()` from app.py: number of suits (over the whole order)
that have at least one card. -/
def total_targets (st : GameState) : Nat :=
  (SUIT_ORDER.filter (fun s => !(st.suit_to_indexes s).isEmpty)).length

/-- One entry of `can_redraw_map()` from app.py: the suit was drawn, its
redraw is unused, and its pool is non-empty. -/
def can_redraw_flag (st : GameState) (s : String) : Bool :=
  (st.suit_drawn_pos s).isSome && !(st.redraw_used s) && !(st.suit_to_indexes s).isEmpty

/-- The payload shape of the `state` event built by `current_state()`. -/
structure Projection where
  drawn : List Card
  remaining : Nat
  total : Nat
  canRedraw : List (String × Bool)
  redrawUsed : List (String × Bool)
deriving DecidableEq, Repr

/-- `current_state()` from app.py: the derived projection sent to viewers. -/
def current_state (cards : List Card) (st : GameState) : Projection :=
  { drawn := st.drawn_indexes.map (fun i => cards.getD i default)
    remaining := remaining_total st
    total := total_targets st
    canRedraw := ELIGIBLE_REDRAW.map (fun s => (s, can_redraw_flag st s))
    redrawUsed := ELIGIBLE_REDRAW.map (fun s => (s, st.redraw_used s)) }

/-- Destination of one `state` emission: `caller` models flask-socketio's
`emit` inside a handler (requesting client only), `all` models
`socketio.emit` (every connected client). -/
inductive Scope where
  | caller : Scope
  | all : Scope
deriving DecidableEq, Repr

/-- The `while` loop at the top of `on_draw`, with explicit fuel:
`while current_step < len(SUIT_ORDER) and not suit_to_indexes.get(SUIT_ORDER[current_step]): current_step += 1`. -/
def advanceAux : Nat → GameState → GameState
  | 0, st => st
  | fuel + 1, st =>
    if st.current_step < SUIT_ORDER.length ∧
        st.suit_to_indexes (SUIT_ORDER.getD st.current_step "") = [] then
      advanceAux fuel { st with current_step := st.current_step + 1 }
    else st

/-- The `while` loop of `on_draw`; `SUIT_ORDER.length - current_step` fuel
suffices because each iteration increases `current_step` and the loop guard
requires `current_step < SUIT_ORDER.length`. -/
def advanceStep (st : GameState) : GameState :=
  advanceAux (SUIT_ORDER.length - st.current_step) st

/-- The socket handler `on_draw()` from app.py: advance the pointer past
empty suits; if past the end, emit current state to the requester only;
otherwise pop one index from the current suit's pool, append it to the drawn
sequence, record the drawn position, advance the pointer, and broadcast. -/
def on_draw (st : GameState) : GameState × List Scope :=
  let st1 := advanceStep st
  if SUIT_ORDER.length ≤ st1.current_step then
    (st1, [Scope.caller])
  else
    let current_suit := SUIT_ORDER.getD st1.current_step ""
    let bucket := st1.suit_to_indexes current_suit
    match bucket.getLast? with
    | none => (st1, [Scope.all])
    | some idx =>
      ({ st1 with
          suit_to_indexes := fun t => if t = current_suit then bucket.dropLast else st1.suit_to_indexes t
          drawn_indexes := st1.drawn_indexes ++ [idx]
          suit_drawn_pos := fun t =>
            if t = current_suit then some st1.drawn_indexes.length else st1.suit_drawn_pos t
          current_step := st1.current_step + 1 },
        [Scope.all])

/-- The state component of `on_draw`. -/
def stateDraw (st : GameState) : GameState :=
  (on_draw st).1

/-- The body of `on_redraw` after the payload has been normalized to the
suit string: the four guarded early returns, then pop one more index from
the suit's pool, overwrite the drawn entry at the recorded position, and
mark the redraw used. -/
def redraw_suit (suit : String) (st : GameState) : GameState × List Scope :=
  if suit ∉ ELIGIBLE_REDRAW then (st, [])
  else if st.redraw_used suit then (st, [])
  else
    match st.suit_drawn_pos suit with
    | none => (st, [])
    | some pos =>
      match (st.suit_to_indexes suit).getLast? with
      | none => (st, [])
      | some new_idx =>
        ({ st with
            suit_to_indexes := fun t =>
              if t = suit then (st.suit_to_indexes suit).dropLast else st.suit_to_indexes t
            drawn_indexes := st.drawn_indexes.set pos new_idx
            redraw_used := fun t => if t = suit then true else st.redraw_used t },
          [Scope.all])

/-- The inbound `redraw` payload: either not a dict
(`isinstance(payload, dict)` fails) or a dict whose `suit` entry is a string
(`none` models an absent or falsy value, which the code turns into `''`). -/
inductive Payload where
  | notDict : Payload
  | dict : Option String → Payload

/-- The socket handler `on_redraw(payload)` from app.py: non-dict payloads
are dropped, otherwise the suit field is stripped and upper-cased and the
redraw body runs. -/
def on_redraw (payload : Payload) (st : GameState) : GameState × List Scope :=
  match payload with
  | Payload.notDict => (st, [])
  | Payload.dict field => redraw_suit (pyUpper (pyStrip (field.getD ""))) st

/-- The socket handler `on_reset()` from app.py: rebuild everything from the
unchanged catalog (with a fresh shuffle) and broadcast. -/
def on_reset (shuffle : String → List Nat → List Nat) (cards : List Card)
    (_st : GameState) : GameState × List Scope :=
  (build_suits shuffle cards, [Scope.all])

/-- The persisted `session.json` record written by `save_session()`, after
JSON parsing and the `int(...)` / `bool(...)` conversions of
`try_load_session` (a failing conversion is modelled by the caller passing
`none` for the whole record). -/
structure SessionData where
  drawn_indexes : List Int
  suit_to_indexes : List (String × List Int)
  suit_drawn_pos : List (String × Int)
  redraw_used : List (String × Bool)
  current_step : Int
  cards_len : Option Int

/-- `try_load_session()` from app.py acting on state `st` (the module
globals): `stored = none` models an absent, unparsable or otherwise
malformed session file (the `except` path).  Mirrors the code's order of
operations: the `cards_len` check, then the assignment of `drawn_indexes`,
then the bounds validation (which can return `False` with `drawn_indexes`
already overwritten), then the filtered restores of the remaining fields. -/
def try_load_session (cards : List Card) (stored : Option SessionData)
    (st : GameState) : Bool × GameState :=
  match stored with
  | none => (false, st)
  | some data =>
    if data.cards_len ≠ some (cards.length : Int) then (false, st)
    else
      let st1 := { st with drawn_indexes := data.drawn_indexes.map Int.toNat }
      if data.drawn_indexes.any (fun i => decide (i < 0 ∨ (cards.length : Int) ≤ i)) then
        (false, st1)
      else
        let st2 := { st1 with
          suit_to_indexes := fun s =>
            (((data.suit_to_indexes.filter
                (fun kv : String × List Int => decide (kv.1 ∈ SUIT_SET))).lookup s).getD []).map Int.toNat }
        let st3 := { st2 with
          suit_drawn_pos := fun s =>
            ((data.suit_drawn_pos.filter
                (fun kv : String × Int => decide (kv.1 ∈ SUIT_SET))).lookup s).map Int.toNat }
        let st4 := { st3 with
          redraw_used := fun s =>
            ((data.redraw_used.filter
                (fun kv : String × Bool => decide (kv.1 ∈ ELIGIBLE_REDRAW))).lookup s).getD false }
        let st5 := { st4 with current_step := data.current_step.toNat }
        (true, st5)

/-- `bootstrap()` from app.py, starting from the module-level initial
globals: restore the previous session if valid, else `build_suits()`. -/
def bootstrap (cards : List Card) (stored : Option SessionData)
    (shuffle : String → List Nat → List Nat) : GameState :=
  let r := try_load_session cards stored initState
  if r.1 then r.2 else build_suits shuffle cards

/-- States reachable in one process session: a fresh build (with any
permutation as the shuffle) followed by any sequence of the socket handlers
`draw`, `redraw` (any payload) and `reset`. -/
inductive Reachable (cards : List Card) : GameState → Prop where
  | build (shuffle : String → List Nat → List Nat)
      (hs : ∀ s l, List.Perm (shuffle s l) l) :
      Reachable cards (build_suits shuffle cards)
  | draw {st : GameState} : Reachable cards st → Reachable cards (on_draw st).1
  | redraw {st : GameState} (payload : Payload) :
      Reachable cards st → Reachable cards (on_redraw payload st).1
  | reset {st : GameState} (shuffle : String → List Nat → List Nat)
      (hs : ∀ s l, List.Perm (shuffle s l) l) :
      Reachable cards st → Reachable cards (on_reset shuffle cards st).1

/-- Identity shuffle, used to instantiate witnesses. -/
def idShuffle : String → List Nat → List Nat := fun _ l => l

/-- A catalog with a single card in the first suit. -/
def cardA : Card :=
  { Category1 := "TOUCHSTONE", Category2 := "", Name := "a", Text := "", ShortText := "", URL := "" }

/-- A card in an eligible suit. -/
def cardT : Card :=
  { Category1 := "TOOL", Category2 := "", Name := "t", Text := "", ShortText := "", URL := "" }

/-- One-card catalog: only the first suit is populated. -/
def cardsA : List Card := [cardA]

/-- Catalog with one TOUCHSTONE card and two TOOL cards. -/
def cardsAT : List Card := [cardA, cardT, cardT]

example : resolveSuit cardA = some "TOUCHSTONE" := by decide
example : suitIndexes cardsA "TOUCHSTONE" = [0] := by decide
example : total_targets (build_suits idShuffle cardsA) = 1 := by decide
example : remaining_total (stateDraw (build_suits idShuffle cardsA)) = 0 := by decide
example : total_targets (stateDraw (build_suits idShuffle cardsA)) = 0 := by decide
example : (stateDraw (build_suits idShuffle cardsA)).current_step = 1 := by decide
example : (on_draw (stateDraw (build_suits idShuffle cardsA))).1.current_step = 5 := by decide
example : (on_draw (stateDraw (build_suits idShuffle cardsA))).2 = [Scope.caller] := by decide

/-! ## Basic facts about the suit partition -/

lemma suit_order_nodup : SUIT_ORDER.Nodup := by decide

lemma eligible_mem_order : ∀ s ∈ ELIGIBLE_REDRAW, s ∈ SUIT_ORDER := by decide

lemma resolveSuit_mem_suit_set {c : Card} {s : String} (h : resolveSuit c = some s) :
    s ∈ SUIT_SET := by
  simp only [resolveSuit] at h
  split at h
  · rename_i hmem
    obtain rfl := Option.some.inj h
    exact hmem
  · split at h
    · rename_i hmem
      obtain rfl := Option.some.inj h
      exact hmem
    · exact absurd h (by simp)

lemma resolveAt_lt {cards : List Card} {i : Nat} {s : String}
    (h : resolveAt cards i = some s) : i < cards.length := by
  unfold resolveAt at h
  rcases Option.bind_eq_some.mp h with ⟨c, hc, _⟩
  exact (List.get?_eq_some.mp hc).1

lemma mem_suitIndexes {cards : List Card} {s : String} {i : Nat} :
    i ∈ suitIndexes cards s ↔ resolveAt cards i = some s := by
  unfold suitIndexes
  rw [List.mem_filter, List.mem_range]
  constructor
  · rintro ⟨-, h⟩
    exact of_decide_eq_true h
  · intro h
    exact ⟨resolveAt_lt h, decide_eq_true h⟩

lemma suitIndexes_nodup (cards : List Card) (s : String) : (suitIndexes cards s).Nodup :=
  List.Nodup.filter _ (List.nodup_range _)

lemma suitIndexes_disjoint {cards : List Card} {s t : String} {i : Nat}
    (hs : i ∈ suitIndexes cards s) (ht : i ∈ suitIndexes cards t) : s = t := by
  have h1 := mem_suitIndexes.mp hs
  have h2 := mem_suitIndexes.mp ht
  rw [h1] at h2
  exact Option.some.inj h2

lemma build_pools_perm {shuffle : String → List Nat → List Nat}
    (hs : ∀ s l, List.Perm (shuffle s l) l) (cards : List Card) (s : String) :
    List.Perm ((build_suits shuffle cards).suit_to_indexes s) (suitIndexes cards s) := by
  unfold build_suits
  by_cases hmem : s ∈ SUIT_SET
  · simpa [hmem] using hs s (suitIndexes cards s)
  · have hempty : suitIndexes cards s = [] := by
      unfold suitIndexes
      rw [List.filter_eq_nil_iff]
      intro i _
      simp only [decide_eq_true_eq]
      intro hres
      unfold resolveAt at hres
      obtain ⟨c, -, hc2⟩ := Option.bind_eq_some.mp hres
      exact hmem (resolveSuit_mem_suit_set hc2)
    simp [hmem, hempty]

lemma mem_build_pools {shuffle : String → List Nat → List Nat}
    (hs : ∀ s l, List.Perm (shuffle s l) l) (cards : List Card) (s : String) (i : Nat) :
    i ∈ (build_suits shuffle cards).suit_to_indexes s ↔ resolveAt cards i = some s := by
  constructor
  · intro h
    exact mem_suitIndexes.mp ((build_pools_perm hs cards s).mem_iff.mp h)
  · intro h
    exact (build_pools_perm hs cards s).mem_iff.mpr (mem_suitIndexes.mpr h)

/-! ## The pointer-advancing while loop of on_draw -/

lemma drop_getD_cons {α : Type} (l : List α) (n : Nat) (h : n < l.length) (d : α) :
    l.drop n = l.getD n d :: l.drop (n + 1) := by
  rw [List.drop_eq_getElem_cons h, List.getD_eq_getElem l d h]

lemma advanceAux_fields (f : Nat) (st : GameState) :
    (advanceAux f st).suit_to_indexes = st.suit_to_indexes ∧
    (advanceAux f st).drawn_indexes = st.drawn_indexes ∧
    (advanceAux f st).suit_drawn_pos = st.suit_drawn_pos ∧
    (advanceAux f st).redraw_used = st.redraw_used := by
  induction f generalizing st with
  | zero => exact ⟨rfl, rfl, rfl, rfl⟩
  | succ f ih =>
    simp only [advanceAux]
    split
    · exact ih _
    · exact ⟨rfl, rfl, rfl, rfl⟩

lemma advanceAux_le (f : Nat) (st : GameState) :
    st.current_step ≤ (advanceAux f st).current_step := by
  induction f generalizing st with
  | zero => exact le_refl _
  | succ f ih =>
    simp only [advanceAux]
    split
    · have h2 := ih { st with current_step := st.current_step + 1 }
      exact le_trans (Nat.le_succ _) h2
    · exact le_refl _

lemma activeSuits_step_succ (st : GameState)
    (hlt : st.current_step < SUIT_ORDER.length)
    (hempty : st.suit_to_indexes (SUIT_ORDER.getD st.current_step "") = []) :
    activeSuits { st with current_step := st.current_step + 1 } = activeSuits st := by
  unfold activeSuits
  show List.filter _ (SUIT_ORDER.drop (st.current_step + 1)) = _
  rw [drop_getD_cons SUIT_ORDER st.current_step hlt "", List.filter_cons, hempty]
  simp

lemma advanceAux_active (f : Nat) (st : GameState) :
    activeSuits (advanceAux f st) = activeSuits st := by
  induction f generalizing st with
  | zero => rfl
  | succ f ih =>
    simp only [advanceAux]
    split
    · rename_i hcond
      rw [ih]
      exact activeSuits_step_succ st hcond.1 hcond.2
    · rfl

lemma advanceAux_terminal (f : Nat) (st : GameState)
    (hf : SUIT_ORDER.length - st.current_step ≤ f) :
    SUIT_ORDER.length ≤ (advanceAux f st).current_step ∨
    ((advanceAux f st).current_step < SUIT_ORDER.length ∧
      (advanceAux f st).suit_to_indexes
        (SUIT_ORDER.getD (advanceAux f st).current_step "") ≠ []) := by
  induction f generalizing st with
  | zero =>
    left
    show SUIT_ORDER.length ≤ st.current_step
    omega
  | succ f ih =>
    simp only [advanceAux]
    split
    · rename_i hcond
      refine ih _ ?_
      show SUIT_ORDER.length - (st.current_step + 1) ≤ f
      have := hcond.1
      omega
    · rename_i hcond
      push_neg at hcond
      by_cases hlt : st.current_step < SUIT_ORDER.length
      · exact Or.inr ⟨hlt, hcond hlt⟩
      · exact Or.inl (by omega)

lemma advanceStep_fields (st : GameState) :
    (advanceStep st).suit_to_indexes = st.suit_to_indexes ∧
    (advanceStep st).drawn_indexes = st.drawn_indexes ∧
    (advanceStep st).suit_drawn_pos = st.suit_drawn_pos ∧
    (advanceStep st).redraw_used = st.redraw_used :=
  advanceAux_fields _ st

lemma advanceStep_le (st : GameState) :
    st.current_step ≤ (advanceStep st).current_step :=
  advanceAux_le _ st

lemma advanceStep_active (st : GameState) :
    activeSuits (advanceStep st) = activeSuits st :=
  advanceAux_active _ st

lemma advanceStep_terminal (st : GameState) :
    SUIT_ORDER.length ≤ (advanceStep st).current_step ∨
    ((advanceStep st).current_step < SUIT_ORDER.length ∧
      (advanceStep st).suit_to_indexes
        (SUIT_ORDER.getD (advanceStep st).current_step "") ≠ []) :=
  advanceAux_terminal _ st (le_refl _)

/-! ## One draw step -/

lemma remaining_eq_zero_iff (st : GameState) :
    remaining_total st = 0 ↔ activeSuits st = [] := by
  unfold remaining_total
  exact List.length_eq_zero

lemma bnot_isEmpty_true {α : Type} {l : List α} (h : l ≠ []) : (!l.isEmpty) = true := by
  simp [h]

lemma draw_exhausted (st : GameState) (h : activeSuits st = []) :
    (on_draw st).1.suit_to_indexes = st.suit_to_indexes ∧
    (on_draw st).1.drawn_indexes = st.drawn_indexes ∧
    (on_draw st).1.suit_drawn_pos = st.suit_drawn_pos ∧
    (on_draw st).1.redraw_used = st.redraw_used ∧
    st.current_step ≤ (on_draw st).1.current_step ∧
    SUIT_ORDER.length ≤ (on_draw st).1.current_step ∧
    (on_draw st).2 = [Scope.caller] := by
  have hge : SUIT_ORDER.length ≤ (advanceStep st).current_step := by
    rcases advanceStep_terminal st with h1 | ⟨hlt, hne⟩
    · exact h1
    · exfalso
      have hmem : SUIT_ORDER.getD (advanceStep st).current_step ""
          ∈ activeSuits (advanceStep st) := by
        unfold activeSuits
        rw [drop_getD_cons SUIT_ORDER (advanceStep st).current_step hlt "", List.filter_cons,
          if_pos (bnot_isEmpty_true hne)]
        exact List.mem_cons_self _ _
      rw [advanceStep_active st, h] at hmem
      exact absurd hmem (List.not_mem_nil _)
  have hd : on_draw st = (advanceStep st, [Scope.caller]) := by
    simp only [on_draw]
    rw [if_pos hge]
  rw [hd]
  obtain ⟨h1, h2, h3, h4⟩ := advanceStep_fields st
  exact ⟨h1, h2, h3, h4, advanceStep_le st, hge, rfl⟩

lemma draw_step (st : GameState) (s : String) (rest : List String)
    (h : activeSuits st = s :: rest) :
    ∃ ys x,
      st.suit_to_indexes s = ys ++ [x] ∧
      (on_draw st).1.suit_to_indexes
        = (fun t => if t = s then ys else st.suit_to_indexes t) ∧
      (on_draw st).1.drawn_indexes = st.drawn_indexes ++ [x] ∧
      (on_draw st).1.suit_drawn_pos
        = (fun t => if t = s then some st.drawn_indexes.length else st.suit_drawn_pos t) ∧
      (on_draw st).1.redraw_used = st.redraw_used ∧
      activeSuits (on_draw st).1 = rest ∧
      (on_draw st).2 = [Scope.all] ∧
      s ∈ SUIT_ORDER := by
  obtain ⟨hpools, hdrawn, hpos, hused⟩ := advanceStep_fields st
  have hact1 : activeSuits (advanceStep st) = s :: rest := by
    rw [advanceStep_active st, h]
  have hterm := advanceStep_terminal st
  have hlt : (advanceStep st).current_step < SUIT_ORDER.length := by
    rcases hterm with h1 | ⟨hlt, -⟩
    · exfalso
      have hnil : activeSuits (advanceStep st) = [] := by
        unfold activeSuits
        rw [List.drop_eq_nil_of_le h1]
        rfl
      rw [hact1] at hnil
      exact List.cons_ne_nil _ _ hnil
    · exact hlt
  have hne : (advanceStep st).suit_to_indexes
      (SUIT_ORDER.getD (advanceStep st).current_step "") ≠ [] := by
    rcases hterm with h1 | ⟨-, hne⟩
    · omega
    · exact hne
  have hsplit : activeSuits (advanceStep st)
      = SUIT_ORDER.getD (advanceStep st).current_step ""
          :: (SUIT_ORDER.drop ((advanceStep st).current_step + 1)).filter
               (fun t => !((advanceStep st).suit_to_indexes t).isEmpty) := by
    unfold activeSuits
    rw [drop_getD_cons SUIT_ORDER (advanceStep st).current_step hlt "", List.filter_cons,
      if_pos (bnot_isEmpty_true hne)]
  rw [hact1] at hsplit
  obtain ⟨hs_eq, hrest⟩ := List.cons.inj hsplit
  have hs_eq' : SUIT_ORDER.getD (advanceStep st).current_step "" = s := hs_eq.symm
  have hbne : st.suit_to_indexes s ≠ [] := by
    rw [← hs_eq', ← hpools]
    exact hne
  have hlast : (st.suit_to_indexes s).getLast? = some ((st.suit_to_indexes s).getLast hbne) :=
    List.getLast?_eq_getLast _ hbne
  have hsc : (advanceStep st).suit_to_indexes (SUIT_ORDER.getD (advanceStep st).current_step "")
      = st.suit_to_indexes s := by
    rw [hpools, hs_eq']
  have hdr : on_draw st =
      ({ suit_to_indexes :=
            fun t => if t = s then (st.suit_to_indexes s).dropLast else st.suit_to_indexes t
         drawn_indexes := st.drawn_indexes ++ [(st.suit_to_indexes s).getLast hbne]
         suit_drawn_pos :=
            fun t => if t = s then some st.drawn_indexes.length else st.suit_drawn_pos t
         redraw_used := st.redraw_used
         current_step := (advanceStep st).current_step + 1 }, [Scope.all]) := by
    simp only [on_draw]
    rw [if_neg (not_le.mpr hlt)]
    simp only [hsc, hlast, hs_eq', hpools, hdrawn, hpos, hused]
  have hnodrop : s ∉ SUIT_ORDER.drop ((advanceStep st).current_step + 1) := by
    have hdc : SUIT_ORDER.drop (advanceStep st).current_step
        = s :: SUIT_ORDER.drop ((advanceStep st).current_step + 1) := by
      rw [drop_getD_cons SUIT_ORDER (advanceStep st).current_step hlt "", hs_eq']
    have hnd : (SUIT_ORDER.drop (advanceStep st).current_step).Nodup :=
      List.Nodup.sublist (List.drop_sublist _ _) suit_order_nodup
    rw [hdc] at hnd
    exact (List.nodup_cons.mp hnd).1
  refine ⟨(st.suit_to_indexes s).dropLast, (st.suit_to_indexes s).getLast hbne,
    (List.dropLast_append_getLast hbne).symm, ?_, ?_, ?_, ?_, ?_, ?_, ?_⟩
  · rw [hdr]
  · rw [hdr]
  · rw [hdr]
  · rw [hdr]
  · rw [hdr]
    unfold activeSuits
    rw [hrest, hpools]
    refine List.filter_congr ?_
    intro t ht
    have htne : t ≠ s := fun hts => hnodrop (hts ▸ ht)
    simp [htne]
  · rw [hdr]
  · rw [← hs_eq']
    have : (advanceStep st).current_step < SUIT_ORDER.length := hlt
    rw [List.getD_eq_getElem SUIT_ORDER "" this]
    exact List.getElem_mem _

/-! ## Iterating draws until exhaustion -/

lemma iterate_draw (cards : List Card) :
    ∀ (k : Nat) (st : GameState), k ≤ (activeSuits st).length →
    (∀ t i, i ∈ st.suit_to_indexes t → resolveAt cards i = some t) →
    activeSuits (stateDraw^[k] st) = (activeSuits st).drop k ∧
    (stateDraw^[k] st).drawn_indexes.map (resolveAt cards)
      = st.drawn_indexes.map (resolveAt cards) ++ ((activeSuits st).take k).map some ∧
    (∀ t i, i ∈ (stateDraw^[k] st).suit_to_indexes t → resolveAt cards i = some t) := by
  intro k
  induction k with
  | zero =>
    intro st _ hinv
    exact ⟨by simp, by simp, by simpa using hinv⟩
  | succ k ih =>
    intro st hk hinv
    obtain ⟨s, rest, hact⟩ : ∃ s rest, activeSuits st = s :: rest := by
      cases hactc : activeSuits st with
      | nil => rw [hactc] at hk; simp at hk
      | cons a l => exact ⟨a, l, rfl⟩
    obtain ⟨ys, x, hpool_eq, hpools', hdrawn', hpos', hused', hact', hem', hsmem⟩ :=
      draw_step st s rest hact
    have hpoolsD : (stateDraw st).suit_to_indexes
        = (fun t => if t = s then ys else st.suit_to_indexes t) := hpools'
    have hdrawnD : (stateDraw st).drawn_indexes = st.drawn_indexes ++ [x] := hdrawn'
    have hactD : activeSuits (stateDraw st) = rest := hact'
    have hx : resolveAt cards x = some s := by
      apply hinv s
      rw [hpool_eq]
      exact List.mem_append_right _ (List.mem_singleton.mpr rfl)
    have hinv1 : ∀ t i, i ∈ (stateDraw st).suit_to_indexes t → resolveAt cards i = some t := by
      intro t i hi
      rw [hpoolsD] at hi
      dsimp only at hi
      by_cases hts : t = s
      · rw [if_pos hts] at hi
        rw [hts]
        apply hinv s
        rw [hpool_eq]
        exact List.mem_append_left _ hi
      · rw [if_neg hts] at hi
        exact hinv t i hi
    have hk1 : k ≤ (activeSuits (stateDraw st)).length := by
      rw [hactD]
      rw [hact] at hk
      simp only [List.length_cons] at hk
      omega
    have hiter : stateDraw^[k + 1] st = stateDraw^[k] (stateDraw st) :=
      Function.iterate_succ_apply stateDraw k st
    obtain ⟨ha, hb, hc⟩ := ih (stateDraw st) hk1 hinv1
    refine ⟨?_, ?_, ?_⟩
    · rw [hiter, ha, hactD, hact]
      rfl
    · rw [hiter, hb, hdrawnD, hactD, hact]
      simp [hx]
    · rw [hiter]
      exact hc

/-! ## The redraw handler -/

lemma redraw_noop (st : GameState) (s : String)
    (h : s ∉ ELIGIBLE_REDRAW ∨ st.redraw_used s = true ∨ st.suit_drawn_pos s = none ∨
      st.suit_to_indexes s = []) :
    redraw_suit s st = (st, []) := by
  unfold redraw_suit
  by_cases h1 : s ∉ ELIGIBLE_REDRAW
  · rw [if_pos h1]
  · rw [if_neg h1]
    by_cases h2 : st.redraw_used s
    · rw [if_pos h2]
    · rw [if_neg h2]
      rcases h with h | h | h | h
      · exact absurd h h1
      · exact absurd h h2
      · rw [h]
      · split
        · rfl
        · rw [h]
          rfl

lemma redraw_success (st : GameState) (s : String) (pos : Nat) (x : Nat)
    (h1 : s ∈ ELIGIBLE_REDRAW) (h2 : st.redraw_used s = false)
    (h3 : st.suit_drawn_pos s = some pos)
    (h4 : (st.suit_to_indexes s).getLast? = some x) :
    redraw_suit s st =
      ({ st with
          suit_to_indexes := fun t =>
            if t = s then (st.suit_to_indexes s).dropLast else st.suit_to_indexes t
          drawn_indexes := st.drawn_indexes.set pos x
          redraw_used := fun t => if t = s then true else st.redraw_used t }, [Scope.all]) := by
  unfold redraw_suit
  rw [if_neg (not_not_intro h1), if_neg (by simp [h2]), h3, h4]

lemma redraw_suit_pools_sublist (s t : String) (st : GameState) :
    ((redraw_suit s st).1.suit_to_indexes t).Sublist (st.suit_to_indexes t) := by
  unfold redraw_suit
  split
  · exact List.Sublist.refl _
  · split
    · exact List.Sublist.refl _
    · split
      · exact List.Sublist.refl _
      · split
        · exact List.Sublist.refl _
        · dsimp only
          by_cases hts : t = s
          · rw [if_pos hts, hts]
            exact List.dropLast_sublist _
          · rw [if_neg hts]

lemma draw_pools_sublist (st : GameState) (t : String) :
    ((on_draw st).1.suit_to_indexes t).Sublist (st.suit_to_indexes t) := by
  have hpools := (advanceStep_fields st).1
  simp only [on_draw]
  split
  · dsimp only
    rw [hpools]
  · split
    · dsimp only
      rw [hpools]
    · dsimp only
      by_cases hts : t = SUIT_ORDER.getD (advanceStep st).current_step ""
      · rw [if_pos hts, hpools, ← hts]
        exact List.dropLast_sublist _
      · rw [if_neg hts, hpools]

/-! ## Monotonicity of the pool counts -/

lemma length_filter_mono {l : List String} {p q : String → Bool}
    (h : ∀ a ∈ l, p a = true → q a = true) :
    (l.filter p).length ≤ (l.filter q).length := by
  induction l with
  | nil => simp
  | cons a l ih =>
    have hle := ih (fun b hb hpb => h b (List.mem_cons_of_mem a hb) hpb)
    simp only [List.filter_cons]
    by_cases hpa : p a = true
    · rw [if_pos hpa, if_pos (h a (List.mem_cons_self a l) hpa)]
      simpa using hle
    · rw [if_neg hpa]
      by_cases hqa : q a = true
      · rw [if_pos hqa]
        simp only [List.length_cons]
        omega
      · rw [if_neg hqa]
        exact hle

lemma total_le_of_pools_sublist {st st' : GameState}
    (h : ∀ t, (st'.suit_to_indexes t).Sublist (st.suit_to_indexes t)) :
    total_targets st' ≤ total_targets st := by
  unfold total_targets
  apply length_filter_mono
  intro a _ hpa
  simp only [Bool.not_eq_true'] at hpa ⊢
  rw [List.isEmpty_eq_false] at hpa ⊢
  intro hnil
  exact hpa (List.sublist_nil.mp (hnil ▸ h a))

/-! ## The combined nodup invariant over drawn indexes and pools -/

/-- All indexes still sitting in some pool, in suit order. -/
def poolsJoin (st : GameState) : List Nat :=
  (SUIT_ORDER.map st.suit_to_indexes).flatten

/-- The in-memory session invariant: no index occurs twice across the drawn
sequence and the pools, every index is a valid catalog index, suits outside
the fixed order have empty pools, and every recorded drawn position is a
valid position of the drawn sequence. -/
def SessionInv (cards : List Card) (st : GameState) : Prop :=
  (st.drawn_indexes ++ poolsJoin st).Nodup ∧
  (∀ i ∈ st.drawn_indexes ++ poolsJoin st, i < cards.length) ∧
  (∀ s, s ∉ SUIT_ORDER → st.suit_to_indexes s = []) ∧
  (∀ s p, st.suit_drawn_pos s = some p → p < st.drawn_indexes.length)

lemma join_split {l : List String} {s : String}
    (hmem : s ∈ l) (hnd : l.Nodup) :
    ∃ P1 P2, l = P1 ++ s :: P2 ∧ s ∉ P1 ∧ s ∉ P2 := by
  obtain ⟨P1, P2, rfl⟩ := List.append_of_mem hmem
  rw [List.nodup_append] at hnd
  obtain ⟨-, h2, hdisj⟩ := hnd
  exact ⟨P1, P2, rfl, fun hs => hdisj hs (List.mem_cons_self _ _),
    (List.nodup_cons.mp h2).1⟩

lemma map_join_plain (f : String → List Nat) (s : String) (P1 P2 : List String) :
    ((P1 ++ s :: P2).map f).flatten = (P1.map f).flatten ++ f s ++ (P2.map f).flatten := by
  rw [List.map_append, List.map_cons, List.flatten_append, List.flatten_cons,
    List.append_assoc]

lemma map_join_update (f : String → List Nat) (v : List Nat) (s : String)
    (P1 P2 : List String) (h1 : s ∉ P1) (h2 : s ∉ P2) :
    ((P1 ++ s :: P2).map (fun t => if t = s then v else f t)).flatten
      = (P1.map f).flatten ++ v ++ (P2.map f).flatten := by
  have hP1 : P1.map (fun t => if t = s then v else f t) = P1.map f := by
    refine List.map_congr_left ?_
    intro a ha
    have hne : a ≠ s := by rintro rfl; exact h1 ha
    rw [if_neg hne]
  have hP2 : P2.map (fun t => if t = s then v else f t) = P2.map f := by
    refine List.map_congr_left ?_
    intro a ha
    have hne : a ≠ s := by rintro rfl; exact h2 ha
    rw [if_neg hne]
  rw [List.map_append, List.map_cons, hP1, hP2, List.flatten_append, List.flatten_cons,
    if_pos rfl, List.append_assoc]

lemma build_inv {shuffle : String → List Nat → List Nat}
    (hs : ∀ s l, List.Perm (shuffle s l) l) (cards : List Card) :
    SessionInv cards (build_suits shuffle cards) := by
  refine ⟨?_, ?_, ?_, ?_⟩
  · show (([] : List Nat) ++ poolsJoin (build_suits shuffle cards)).Nodup
    rw [List.nil_append]
    unfold poolsJoin
    rw [List.nodup_flatten]
    constructor
    · intro l hl
      obtain ⟨t, -, rfl⟩ := List.mem_map.mp hl
      exact ((build_pools_perm hs cards t).nodup_iff).mpr (suitIndexes_nodup cards t)
    · rw [List.pairwise_map]
      refine List.Pairwise.imp ?_ suit_order_nodup
      intro a b hab i hia hib
      exact hab (suitIndexes_disjoint
        (mem_suitIndexes.mpr ((mem_build_pools hs cards a i).mp hia))
        (mem_suitIndexes.mpr ((mem_build_pools hs cards b i).mp hib)))
  · intro i hi
    rw [show (build_suits shuffle cards).drawn_indexes = [] from rfl, List.nil_append] at hi
    obtain ⟨l, hl, hil⟩ := List.mem_flatten.mp hi
    obtain ⟨t, -, rfl⟩ := List.mem_map.mp hl
    exact resolveAt_lt ((mem_build_pools hs cards t i).mp hil)
  · intro s hns
    have hns' : s ∉ SUIT_SET := hns
    show (if s ∈ SUIT_SET then shuffle s (suitIndexes cards s) else []) = []
    rw [if_neg hns']
  · intro s p hp
    exact absurd hp (by simp [build_suits])

lemma draw_inv {cards : List Card} {st : GameState}
    (hinv : SessionInv cards st) : SessionInv cards (on_draw st).1 := by
  obtain ⟨hnd, hbound, hoff, hposv⟩ := hinv
  cases hact : activeSuits st with
  | nil =>
    obtain ⟨hpools, hdrawn, hpos, hused, -, -, -⟩ := draw_exhausted st hact
    have hpj : poolsJoin (on_draw st).1 = poolsJoin st := by
      unfold poolsJoin
      rw [hpools]
    refine ⟨?_, ?_, ?_, ?_⟩
    · rw [hdrawn, hpj]; exact hnd
    · rw [hdrawn, hpj]; exact hbound
    · intro s hns; rw [hpools]; exact hoff s hns
    · intro s p hp
      rw [hpos] at hp
      rw [hdrawn]
      exact hposv s p hp
  | cons s rest =>
    obtain ⟨ys, x, hpool_eq, hpools', hdrawn', hpos', hused', hact', hem', hsmem⟩ :=
      draw_step st s rest hact
    obtain ⟨P1, P2, hsplit, hP1, hP2⟩ := join_split hsmem suit_order_nodup
    have hJ : poolsJoin st
        = (P1.map st.suit_to_indexes).flatten ++ (ys ++ [x])
            ++ (P2.map st.suit_to_indexes).flatten := by
      unfold poolsJoin
      rw [hsplit, map_join_plain, hpool_eq]
    have hJ' : poolsJoin (on_draw st).1
        = (P1.map st.suit_to_indexes).flatten ++ ys
            ++ (P2.map st.suit_to_indexes).flatten := by
      unfold poolsJoin
      rw [hsplit, hpools', map_join_update _ _ _ _ _ hP1 hP2]
    have hperm : ((on_draw st).1.drawn_indexes ++ poolsJoin (on_draw st).1).Perm
        (st.drawn_indexes ++ poolsJoin st) := by
      rw [hdrawn', hJ', hJ]
      generalize (List.map st.suit_to_indexes P1).flatten = J1
      generalize (List.map st.suit_to_indexes P2).flatten = J2
      have e1 : (st.drawn_indexes ++ [x]) ++ (J1 ++ ys ++ J2)
          = st.drawn_indexes ++ (x :: ((J1 ++ ys) ++ J2)) := by
        simp [List.append_assoc]
      have e2 : st.drawn_indexes ++ (J1 ++ (ys ++ [x]) ++ J2)
          = st.drawn_indexes ++ ((J1 ++ ys) ++ x :: J2) := by
        simp [List.append_assoc]
      rw [e1, e2]
      exact List.Perm.append_left _ List.perm_middle.symm
    refine ⟨?_, ?_, ?_, ?_⟩
    · exact (hperm.nodup_iff).mpr hnd
    · intro i hi
      exact hbound i (hperm.mem_iff.mp hi)
    · intro t hnt
      rw [hpools']
      dsimp only
      have hne : t ≠ s := by rintro rfl; exact hnt hsmem
      rw [if_neg hne]
      exact hoff t hnt
    · intro t p hp
      rw [hpos'] at hp
      dsimp only at hp
      rw [hdrawn', List.length_append, List.length_singleton]
      by_cases hts : t = s
      · rw [if_pos hts] at hp
        obtain rfl := Option.some.inj hp
        omega
      · rw [if_neg hts] at hp
        have := hposv t p hp
        omega

lemma redraw_suit_inv {cards : List Card} {st : GameState} (s : String)
    (hinv : SessionInv cards st) : SessionInv cards (redraw_suit s st).1 := by
  obtain ⟨hnd, hbound, hoff, hposv⟩ := hinv
  by_cases hfail : s ∉ ELIGIBLE_REDRAW ∨ st.redraw_used s = true ∨
      st.suit_drawn_pos s = none ∨ st.suit_to_indexes s = []
  · rw [redraw_noop st s hfail]
    exact ⟨hnd, hbound, hoff, hposv⟩
  · push_neg at hfail
    obtain ⟨h1', h2', h3', h4'⟩ := hfail
    have h1 : s ∈ ELIGIBLE_REDRAW := h1'
    have h2 : st.redraw_used s = false := by
      cases hb : st.redraw_used s
      · rfl
      · exact absurd hb h2'
    obtain ⟨pos, hpos⟩ : ∃ pos, st.suit_drawn_pos s = some pos := by
      cases hp : st.suit_drawn_pos s
      · exact absurd hp h3'
      · exact ⟨_, rfl⟩
    have hbne : st.suit_to_indexes s ≠ [] := h4'
    have hlast : (st.suit_to_indexes s).getLast?
        = some ((st.suit_to_indexes s).getLast hbne) :=
      List.getLast?_eq_getLast _ hbne
    set x := (st.suit_to_indexes s).getLast hbne with hx
    have hpool_eq : st.suit_to_indexes s = (st.suit_to_indexes s).dropLast ++ [x] :=
      (List.dropLast_append_getLast hbne).symm
    have hred := redraw_success st s pos x h1 h2 hpos hlast
    have hplt : pos < st.drawn_indexes.length := hposv s pos hpos
    have hsmem : s ∈ SUIT_ORDER := eligible_mem_order s h1
    obtain ⟨P1, P2, hsplit, hP1, hP2⟩ := join_split hsmem suit_order_nodup
    have hJ : poolsJoin st
        = (P1.map st.suit_to_indexes).flatten ++ ((st.suit_to_indexes s).dropLast ++ [x])
            ++ (P2.map st.suit_to_indexes).flatten := by
      unfold poolsJoin
      rw [hsplit, map_join_plain, ← hpool_eq]
    have hJ' : poolsJoin (redraw_suit s st).1
        = (P1.map st.suit_to_indexes).flatten ++ (st.suit_to_indexes s).dropLast
            ++ (P2.map st.suit_to_indexes).flatten := by
      unfold poolsJoin
      rw [hred]
      dsimp only
      rw [hsplit]
      exact map_join_update _ _ _ _ _ hP1 hP2
    have hd_old : st.drawn_indexes
        = st.drawn_indexes.take pos ++ st.drawn_indexes[pos] :: st.drawn_indexes.drop (pos + 1) := by
      rw [← List.drop_eq_getElem_cons hplt, List.take_append_drop]
    have hd_new : st.drawn_indexes.set pos x
        = st.drawn_indexes.take pos ++ x :: st.drawn_indexes.drop (pos + 1) := by
      rw [List.set_eq_take_append_cons_drop, if_pos hplt]
    have hdrawn' : (redraw_suit s st).1.drawn_indexes = st.drawn_indexes.set pos x := by
      rw [hred]
    -- the old combined list is a permutation of d :: x :: K, the new one of x :: K
    have hperm_old : (st.drawn_indexes ++ poolsJoin st).Perm
        (st.drawn_indexes[pos] :: x ::
          ((st.drawn_indexes.take pos ++ st.drawn_indexes.drop (pos + 1))
            ++ ((P1.map st.suit_to_indexes).flatten ++ (st.suit_to_indexes s).dropLast
                ++ (P2.map st.suit_to_indexes).flatten))) := by
      rw [hJ]
      conv_lhs => rw [hd_old]
      generalize (List.map st.suit_to_indexes P1).flatten = J1
      generalize (List.map st.suit_to_indexes P2).flatten = J2
      generalize (st.suit_to_indexes s).dropLast = ys
      generalize st.drawn_indexes.take pos = D1
      generalize st.drawn_indexes.drop (pos + 1) = D2
      generalize st.drawn_indexes[pos] = d
      have pa : (D1 ++ d :: D2).Perm (d :: (D1 ++ D2)) := List.perm_middle
      have pb : (J1 ++ (ys ++ [x]) ++ J2).Perm (x :: (J1 ++ ys ++ J2)) := by
        have he : J1 ++ (ys ++ [x]) ++ J2 = (J1 ++ ys) ++ x :: J2 := by
          simp [List.append_assoc]
        rw [he]
        exact List.perm_middle
      refine (pa.append pb).trans ?_
      rw [List.cons_append]
      exact List.Perm.cons _ List.perm_middle
    have hperm_new : ((redraw_suit s st).1.drawn_indexes ++ poolsJoin (redraw_suit s st).1).Perm
        (x :: ((st.drawn_indexes.take pos ++ st.drawn_indexes.drop (pos + 1))
            ++ ((P1.map st.suit_to_indexes).flatten ++ (st.suit_to_indexes s).dropLast
                ++ (P2.map st.suit_to_indexes).flatten))) := by
      rw [hdrawn', hJ', hd_new]
      generalize (List.map st.suit_to_indexes P1).flatten = J1
      generalize (List.map st.suit_to_indexes P2).flatten = J2
      generalize (st.suit_to_indexes s).dropLast = ys
      generalize st.drawn_indexes.take pos = D1
      generalize st.drawn_indexes.drop (pos + 1) = D2
      have pa : (D1 ++ x :: D2).Perm (x :: (D1 ++ D2)) := List.perm_middle
      refine (pa.append (List.Perm.refl (J1 ++ ys ++ J2))).trans ?_
      rw [List.cons_append]
    have hnd_old := (hperm_old.nodup_iff).mp hnd
    have hnd_tail : (x ::
        ((st.drawn_indexes.take pos ++ st.drawn_indexes.drop (pos + 1))
          ++ ((P1.map st.suit_to_indexes).flatten ++ (st.suit_to_indexes s).dropLast
              ++ (P2.map st.suit_to_indexes).flatten))).Nodup :=
      (List.nodup_cons.mp hnd_old).2
    refine ⟨?_, ?_, ?_, ?_⟩
    · exact (hperm_new.nodup_iff).mpr hnd_tail
    · intro i hi
      refine hbound i (hperm_old.mem_iff.mpr ?_)
      exact List.mem_cons_of_mem _ (hperm_new.mem_iff.mp hi)
    · intro t hnt
      rw [hred]
      dsimp only
      have hne : t ≠ s := by rintro rfl; exact hnt hsmem
      rw [if_neg hne]
      exact hoff t hnt
    · intro t p hp
      rw [hred] at hp
      dsimp only at hp
      rw [hdrawn', List.length_set]
      exact hposv t p hp

lemma redraw_inv {cards : List Card} {st : GameState} (payload : Payload)
    (hinv : SessionInv cards st) : SessionInv cards (on_redraw payload st).1 := by
  cases payload with
  | notDict => exact hinv
  | dict field => exact redraw_suit_inv _ hinv

/-- Every reachable state satisfies the session invariant. -/
lemma reachable_inv {cards : List Card} {st : GameState}
    (h : Reachable cards st) : SessionInv cards st := by
  induction h with
  | build shuffle hs => exact build_inv hs cards
  | draw _ ih => exact draw_inv ih
  | redraw payload _ ih => exact redraw_inv payload ih
  | reset shuffle hs _ _ => exact build_inv hs cards

lemma on_redraw_pools_sublist (p : Payload) (st : GameState) (t : String) :
    ((on_redraw p st).1.suit_to_indexes t).Sublist (st.suit_to_indexes t) := by
  cases p with
  | notDict => exact List.Sublist.refl _
  | dict f => exact redraw_suit_pools_sublist _ t st

/-! ## The claims -/

/-- C1: for every catalog, after `build_suits()` the union of all suit
pools' indexes (pools of suits outside the fixed order are empty) has no
duplicate indexes, no index appears in two pools, and it equals exactly the
set of catalog indexes whose resolved category — `Category1` if it is in the
whitelist, otherwise `Category2` if that is in the whitelist, otherwise the
card is dropped — is in the whitelist. -/
theorem C1_build_partition (cards : List Card) (shuffle : String → List Nat → List Nat)
    (hs : ∀ s l, List.Perm (shuffle s l) l) :
    (poolsJoin (build_suits shuffle cards)).Nodup ∧
    (∀ s t, s ≠ t → ∀ i, i ∈ (build_suits shuffle cards).suit_to_indexes s →
      i ∉ (build_suits shuffle cards).suit_to_indexes t) ∧
    (∀ s, s ∉ SUIT_ORDER → (build_suits shuffle cards).suit_to_indexes s = []) ∧
    (∀ i, i ∈ poolsJoin (build_suits shuffle cards) ↔
      ∃ c s, cards.get? i = some c ∧ resolveSuit c = some s ∧ s ∈ SUIT_SET) := by
  obtain ⟨hnd, -, hoff, -⟩ := build_inv hs cards
  rw [show (build_suits shuffle cards).drawn_indexes = [] from rfl, List.nil_append] at hnd
  refine ⟨hnd, ?_, hoff, ?_⟩
  · intro s t hst i his hit
    exact hst (suitIndexes_disjoint
      (mem_suitIndexes.mpr ((mem_build_pools hs cards s i).mp his))
      (mem_suitIndexes.mpr ((mem_build_pools hs cards t i).mp hit)))
  · intro i
    constructor
    · intro hi
      obtain ⟨l, hl, hil⟩ := List.mem_flatten.mp hi
      obtain ⟨t, -, rfl⟩ := List.mem_map.mp hl
      have hres := (mem_build_pools hs cards t i).mp hil
      unfold resolveAt at hres
      obtain ⟨c, hc, hcs⟩ := Option.bind_eq_some.mp hres
      exact ⟨c, t, hc, hcs, resolveSuit_mem_suit_set hcs⟩
    · rintro ⟨c, t, hc, hcs, hts⟩
      have hres : resolveAt cards i = some t := by
        unfold resolveAt
        rw [hc, Option.some_bind]
        exact hcs
      refine List.mem_flatten.mpr ⟨(build_suits shuffle cards).suit_to_indexes t,
        List.mem_map_of_mem _ hts, ?_⟩
      exact (mem_build_pools hs cards t i).mpr hres

/-- Witness for C1 at a concrete one-card catalog and the identity shuffle. -/
theorem C1_build_partition_witness :
    (∀ s l, List.Perm (idShuffle s l) l) ∧
    ((poolsJoin (build_suits idShuffle cardsA)).Nodup ∧
    (∀ s t, s ≠ t → ∀ i, i ∈ (build_suits idShuffle cardsA).suit_to_indexes s →
      i ∉ (build_suits idShuffle cardsA).suit_to_indexes t) ∧
    (∀ s, s ∉ SUIT_ORDER → (build_suits idShuffle cardsA).suit_to_indexes s = []) ∧
    (∀ i, i ∈ poolsJoin (build_suits idShuffle cardsA) ↔
      ∃ c s, cardsA.get? i = some c ∧ resolveSuit c = some s ∧ s ∈ SUIT_SET)) :=
  ⟨fun _ _ => List.Perm.refl _,
    C1_build_partition cardsA idShuffle (fun _ _ => List.Perm.refl _)⟩

/-- C2: from a fresh build, iterating `draw()` exactly `total_targets` many
times drives `remaining_total` down by one per call until it reaches 0, and
produces a drawn sequence of length `total_targets` whose entries resolve,
in order, to exactly the non-empty suits in the fixed suit order. -/
theorem C2_draw_sequence (cards : List Card) (shuffle : String → List Nat → List Nat)
    (hs : ∀ s l, List.Perm (shuffle s l) l) :
    (∀ k, k ≤ total_targets (build_suits shuffle cards) →
      remaining_total (stateDraw^[k] (build_suits shuffle cards))
        = total_targets (build_suits shuffle cards) - k) ∧
    (stateDraw^[total_targets (build_suits shuffle cards)]
        (build_suits shuffle cards)).drawn_indexes.length
      = total_targets (build_suits shuffle cards) ∧
    (stateDraw^[total_targets (build_suits shuffle cards)]
        (build_suits shuffle cards)).drawn_indexes.map (resolveAt cards)
      = (SUIT_ORDER.filter
          (fun s => !((build_suits shuffle cards).suit_to_indexes s).isEmpty)).map some := by
  have hact0 : activeSuits (build_suits shuffle cards)
      = SUIT_ORDER.filter
          (fun s => !((build_suits shuffle cards).suit_to_indexes s).isEmpty) := rfl
  have hn : total_targets (build_suits shuffle cards)
      = (activeSuits (build_suits shuffle cards)).length := rfl
  have hinv0 : ∀ t i, i ∈ (build_suits shuffle cards).suit_to_indexes t →
      resolveAt cards i = some t :=
    fun t i hi => (mem_build_pools hs cards t i).mp hi
  refine ⟨?_, ?_, ?_⟩
  · intro k hk
    obtain ⟨hak, -, -⟩ := iterate_draw cards k (build_suits shuffle cards)
      (by rw [← hn]; exact hk) hinv0
    unfold remaining_total
    rw [hak, List.length_drop, ← hn]
  · obtain ⟨-, hb, -⟩ := iterate_draw cards (total_targets (build_suits shuffle cards))
      (build_suits shuffle cards) (le_of_eq hn) hinv0
    have hlen := congrArg List.length hb
    simp only [List.length_map, List.length_append, List.length_take] at hlen
    rw [show (build_suits shuffle cards).drawn_indexes = [] from rfl] at hlen
    simp only [List.length_nil, Nat.zero_add] at hlen
    rw [hlen, ← hn]
    exact min_self _
  · obtain ⟨-, hb, -⟩ := iterate_draw cards (total_targets (build_suits shuffle cards))
      (build_suits shuffle cards) (le_of_eq hn) hinv0
    rw [hb, show (build_suits shuffle cards).drawn_indexes = [] from rfl]
    rw [show ((activeSuits (build_suits shuffle cards)).take
        (total_targets (build_suits shuffle cards)))
      = activeSuits (build_suits shuffle cards) from by rw [hn, List.take_length]]
    rw [hact0]
    rfl

/-- Witness for C2 at a concrete one-card catalog and the identity shuffle. -/
theorem C2_draw_sequence_witness :
    (∀ s l, List.Perm (idShuffle s l) l) ∧
    ((∀ k, k ≤ total_targets (build_suits idShuffle cardsA) →
      remaining_total (stateDraw^[k] (build_suits idShuffle cardsA))
        = total_targets (build_suits idShuffle cardsA) - k) ∧
    (stateDraw^[total_targets (build_suits idShuffle cardsA)]
        (build_suits idShuffle cardsA)).drawn_indexes.length
      = total_targets (build_suits idShuffle cardsA) ∧
    (stateDraw^[total_targets (build_suits idShuffle cardsA)]
        (build_suits idShuffle cardsA)).drawn_indexes.map (resolveAt cardsA)
      = (SUIT_ORDER.filter
          (fun s => !((build_suits idShuffle cardsA).suit_to_indexes s).isEmpty)).map some) :=
  ⟨fun _ _ => List.Perm.refl _, C2_draw_sequence cardsA idShuffle (fun _ _ => List.Perm.refl _)⟩

/-- A concrete mid-session state: TOOL still has two pooled cards, one card
(index 3) has been drawn for TOOL at position 0, no redraw used yet. -/
def exState : GameState :=
  { suit_to_indexes := fun t => if t = "TOOL" then [5, 7] else []
    drawn_indexes := [3]
    suit_drawn_pos := fun t => if t = "TOOL" then some 0 else none
    redraw_used := fun _ => false
    current_step := 5 }

/-- C3: `redraw(category)` is a silent no-op (no state change, no emission)
unless the category is redraw-eligible, unused, drawn, and its pool is
non-empty; when all conditions hold (and the recorded position is a real
position of the drawn sequence, as it is in every reachable state), it pops
one index from the pool, overwrites the drawn entry at the recorded
position — the position itself unchanged — and marks the ledger used. -/
theorem C3_redraw_guards (st : GameState) (s : String) :
    ((s ∉ ELIGIBLE_REDRAW ∨ st.redraw_used s = true ∨ st.suit_drawn_pos s = none ∨
        st.suit_to_indexes s = []) →
      redraw_suit s st = (st, [])) ∧
    (∀ pos x, s ∈ ELIGIBLE_REDRAW → st.redraw_used s = false →
      st.suit_drawn_pos s = some pos → (st.suit_to_indexes s).getLast? = some x →
      pos < st.drawn_indexes.length →
      (redraw_suit s st).1.suit_to_indexes s = (st.suit_to_indexes s).dropLast ∧
      (∀ t, t ≠ s → (redraw_suit s st).1.suit_to_indexes t = st.suit_to_indexes t) ∧
      (redraw_suit s st).1.drawn_indexes = st.drawn_indexes.set pos x ∧
      (redraw_suit s st).1.drawn_indexes.length = st.drawn_indexes.length ∧
      (redraw_suit s st).1.drawn_indexes.get? pos = some x ∧
      (∀ q, q ≠ pos → (redraw_suit s st).1.drawn_indexes.get? q = st.drawn_indexes.get? q) ∧
      (redraw_suit s st).1.suit_drawn_pos = st.suit_drawn_pos ∧
      (redraw_suit s st).1.redraw_used s = true ∧
      (∀ t, t ≠ s → (redraw_suit s st).1.redraw_used t = st.redraw_used t) ∧
      (redraw_suit s st).1.current_step = st.current_step ∧
      (redraw_suit s st).2 = [Scope.all]) := by
  constructor
  · exact redraw_noop st s
  · intro pos x h1 h2 h3 h4 h5
    have hred := redraw_success st s pos x h1 h2 h3 h4
    refine ⟨?_, ?_, ?_, ?_, ?_, ?_, ?_, ?_, ?_, ?_, ?_⟩
    · rw [hred]
      dsimp only
      rw [if_pos rfl]
    · intro t ht
      rw [hred]
      dsimp only
      rw [if_neg ht]
    · rw [hred]
    · rw [hred]
      dsimp only
      exact List.length_set _ _ _
    · rw [hred]
      dsimp only
      rw [List.get?_eq_getElem?]
      exact List.getElem?_set_self h5
    · intro q hq
      rw [hred]
      dsimp only
      rw [List.get?_eq_getElem?, List.get?_eq_getElem?]
      exact List.getElem?_set_ne (fun h => hq h.symm)
    · rw [hred]
    · rw [hred]
      dsimp only
      rw [if_pos rfl]
    · intro t ht
      rw [hred]
      dsimp only
      rw [if_neg ht]
    · rw [hred]
    · rw [hred]

/-- Witness for C3: a successful redraw of TOOL on `exState` (pops index 7,
overwrites drawn position 0, marks the ledger), and the silent no-op on an
ineligible category. -/
theorem C3_redraw_guards_witness :
    ("TOOL" ∈ ELIGIBLE_REDRAW ∧ exState.redraw_used "TOOL" = false ∧
      exState.suit_drawn_pos "TOOL" = some 0 ∧
      (exState.suit_to_indexes "TOOL").getLast? = some 7 ∧
      0 < exState.drawn_indexes.length) ∧
    (redraw_suit "TOOL" exState).1.redraw_used "TOOL" = true ∧
    (redraw_suit "TOOL" exState).1.drawn_indexes.get? 0 = some 7 ∧
    redraw_suit "TOUCHSTONE" exState = (exState, []) := by
  have h := (C3_redraw_guards exState "TOOL").2 0 7
    (by decide) (by decide) (by decide) (by decide) (by decide)
  exact ⟨⟨by decide, by decide, by decide, by decide, by decide⟩,
    h.2.2.2.2.2.2.2.1, h.2.2.2.2.1,
    (C3_redraw_guards exState "TOUCHSTONE").1 (Or.inl (by decide))⟩

/-- Counterexample to C4 as stated: with one TOUCHSTONE card, `total()` is 1
after building; the draw that empties the TOUCHSTONE pool drops it to 0, so
`total()` does change during the session. -/
theorem C4_total_changes_counterexample :
    total_targets (stateDraw (build_suits idShuffle cardsA))
      ≠ total_targets (build_suits idShuffle cardsA) := by
  decide

/-- C4 (amended): after `build_suits()`, `total_targets` equals the number
of whitelisted categories with at least one assigned card; thereafter it is
not constant — it can only decrease, dropping when a draw or redraw empties
a category's pool. -/
theorem C4_total_after_build (cards : List Card) (shuffle : String → List Nat → List Nat)
    (hs : ∀ s l, List.Perm (shuffle s l) l) :
    total_targets (build_suits shuffle cards)
      = (SUIT_ORDER.filter
          (fun s => decide (∃ i, i < cards.length ∧ resolveAt cards i = some s))).length ∧
    (∀ st : GameState, total_targets (stateDraw st) ≤ total_targets st) ∧
    (∀ (st : GameState) (p : Payload),
      total_targets ((on_redraw p st).1) ≤ total_targets st) := by
  refine ⟨?_, ?_, ?_⟩
  · unfold total_targets
    congr 1
    refine List.filter_congr ?_
    intro s _
    by_cases hP : ∃ i, i < cards.length ∧ resolveAt cards i = some s
    · obtain ⟨i, hilt, hres⟩ := hP
      have hmem : i ∈ (build_suits shuffle cards).suit_to_indexes s :=
        (mem_build_pools hs cards s i).mpr hres
      have hne : (build_suits shuffle cards).suit_to_indexes s ≠ [] :=
        fun hnil => absurd (hnil ▸ hmem) (List.not_mem_nil i)
      simp only [bnot_isEmpty_true hne, decide_eq_true_eq]
      simp [hilt, hres]
      exact ⟨i, hilt, hres⟩
    · have hnil : (build_suits shuffle cards).suit_to_indexes s = [] := by
        cases hc : (build_suits shuffle cards).suit_to_indexes s with
        | nil => rfl
        | cons a l =>
          exfalso
          have hmem : a ∈ (build_suits shuffle cards).suit_to_indexes s := by
            rw [hc]; exact List.mem_cons_self _ _
          have hres := (mem_build_pools hs cards s a).mp hmem
          exact hP ⟨a, resolveAt_lt hres, hres⟩
      rw [hnil]
      simp [hP]
  · intro st
    exact total_le_of_pools_sublist (fun t => draw_pools_sublist st t)
  · intro st p
    exact total_le_of_pools_sublist (fun t => on_redraw_pools_sublist p st t)

/-- Witness for C4's amended statement at a concrete catalog. -/
theorem C4_total_after_build_witness :
    (∀ s l, List.Perm (idShuffle s l) l) ∧
    (total_targets (build_suits idShuffle cardsAT)
      = (SUIT_ORDER.filter
          (fun s => decide (∃ i, i < cardsAT.length ∧ resolveAt cardsAT i = some s))).length ∧
    (∀ st : GameState, total_targets (stateDraw st) ≤ total_targets st) ∧
    (∀ (st : GameState) (p : Payload),
      total_targets ((on_redraw p st).1) ≤ total_targets st)) :=
  ⟨fun _ _ => List.Perm.refl _,
    C4_total_after_build cardsAT idShuffle (fun _ _ => List.Perm.refl _)⟩

/-- The exhausted state after drawing the single TOUCHSTONE card of
`cardsA`: the pointer is at 1, every pool is empty, `remaining` is 0. -/
def stExhaust : GameState := stateDraw (build_suits idShuffle cardsA)

/-- Counterexample to C5 as stated: at `stExhaust`, `remaining()` is 0, yet
a further `draw()` does change the Progression Pointer (the while loop runs
it past the empty suits to the end), and the state message goes only to the
requesting client, not as a broadcast. -/
theorem C5_draw_counterexample :
    remaining_total stExhaust = 0 ∧
    (on_draw stExhaust).1.current_step ≠ stExhaust.current_step ∧
    (on_draw stExhaust).2 = [Scope.caller] := by
  refine ⟨by decide, by decide, by decide⟩

/-- C5 (amended): when `remaining()` is 0, a further `draw()` leaves the
drawn sequence, every pool, the drawn-position map and the redraw ledger
unchanged, keeps `remaining()` at 0 and the projection identical — but the
Progression Pointer may advance (to at least the end of the suit order),
and the unchanged state is emitted to the requesting client only. -/
theorem C5_draw_after_exhaustion (cards : List Card) (st : GameState)
    (h : remaining_total st = 0) :
    (on_draw st).1.drawn_indexes = st.drawn_indexes ∧
    (on_draw st).1.suit_to_indexes = st.suit_to_indexes ∧
    (on_draw st).1.suit_drawn_pos = st.suit_drawn_pos ∧
    (on_draw st).1.redraw_used = st.redraw_used ∧
    st.current_step ≤ (on_draw st).1.current_step ∧
    SUIT_ORDER.length ≤ (on_draw st).1.current_step ∧
    remaining_total (on_draw st).1 = 0 ∧
    current_state cards (on_draw st).1 = current_state cards st ∧
    (on_draw st).2 = [Scope.caller] := by
  have hact := (remaining_eq_zero_iff st).mp h
  obtain ⟨h1, h2, h3, h4, h5, h6, h7⟩ := draw_exhausted st hact
  have hrem : remaining_total (on_draw st).1 = 0 := by
    rw [remaining_eq_zero_iff]
    unfold activeSuits
    rw [List.drop_eq_nil_of_le h6]
    rfl
  have htot : total_targets (on_draw st).1 = total_targets st := by
    unfold total_targets
    rw [h1]
  have hproj : current_state cards (on_draw st).1 = current_state cards st := by
    simp only [current_state, can_redraw_flag, h1, h2, h3, h4, hrem, h, htot]
  exact ⟨h2, h1, h3, h4, h5, h6, hrem, hproj, h7⟩

/-- Witness for C5's amended statement at the concrete exhausted state. -/
theorem C5_draw_after_exhaustion_witness :
    remaining_total stExhaust = 0 ∧
    ((on_draw stExhaust).1.drawn_indexes = stExhaust.drawn_indexes ∧
    (on_draw stExhaust).1.suit_to_indexes = stExhaust.suit_to_indexes ∧
    (on_draw stExhaust).1.suit_drawn_pos = stExhaust.suit_drawn_pos ∧
    (on_draw stExhaust).1.redraw_used = stExhaust.redraw_used ∧
    stExhaust.current_step ≤ (on_draw stExhaust).1.current_step ∧
    SUIT_ORDER.length ≤ (on_draw stExhaust).1.current_step ∧
    remaining_total (on_draw stExhaust).1 = 0 ∧
    current_state cardsA (on_draw stExhaust).1 = current_state cardsA stExhaust ∧
    (on_draw stExhaust).2 = [Scope.caller]) :=
  ⟨by decide, C5_draw_after_exhaustion cardsA stExhaust (by decide)⟩

/-- C6: a redraw succeeds at most once per category per session: after a
successful redraw the ledger flag is true, and a second `redraw` of the same
category — with no assumption that its pool is empty — is a complete no-op
(state returned unchanged, no emission, drawn sequence untouched). -/
theorem C6_redraw_once (st : GameState) (s : String) (pos x : Nat)
    (h1 : s ∈ ELIGIBLE_REDRAW) (h2 : st.redraw_used s = false)
    (h3 : st.suit_drawn_pos s = some pos)
    (h4 : (st.suit_to_indexes s).getLast? = some x) :
    (redraw_suit s st).1.redraw_used s = true ∧
    redraw_suit s ((redraw_suit s st).1) = ((redraw_suit s st).1, []) ∧
    (redraw_suit s ((redraw_suit s st).1)).1.drawn_indexes
      = (redraw_suit s st).1.drawn_indexes := by
  have hred := redraw_success st s pos x h1 h2 h3 h4
  have hused : (redraw_suit s st).1.redraw_used s = true := by
    rw [hred]
    dsimp only
    rw [if_pos rfl]
  have hnoop := redraw_noop ((redraw_suit s st).1) s (Or.inr (Or.inl hused))
  exact ⟨hused, hnoop, by rw [hnoop]⟩

/-- Witness for C6: the second redraw of TOOL on `exState` is a no-op even
though the pool still holds index 5. -/
theorem C6_redraw_once_witness :
    ("TOOL" ∈ ELIGIBLE_REDRAW ∧ exState.redraw_used "TOOL" = false ∧
      exState.suit_drawn_pos "TOOL" = some 0 ∧
      (exState.suit_to_indexes "TOOL").getLast? = some 7 ∧
      (redraw_suit "TOOL" exState).1.suit_to_indexes "TOOL" ≠ []) ∧
    ((redraw_suit "TOOL" exState).1.redraw_used "TOOL" = true ∧
    redraw_suit "TOOL" ((redraw_suit "TOOL" exState).1)
      = ((redraw_suit "TOOL" exState).1, []) ∧
    (redraw_suit "TOOL" ((redraw_suit "TOOL" exState).1)).1.drawn_indexes
      = (redraw_suit "TOOL" exState).1.drawn_indexes) :=
  ⟨⟨by decide, by decide, by decide, by decide, by decide⟩,
    C6_redraw_once exState "TOOL" 0 7 (by decide) (by decide) (by decide) (by decide)⟩

/-- C7: from any state, `reset()` rebuilds afresh: afterwards
`remaining() = total()`, the drawn sequence is empty, every redraw-used flag
is false, and the new state is broadcast to all viewers. -/
theorem C7_reset_fresh (shuffle : String → List Nat → List Nat) (cards : List Card)
    (st : GameState) :
    remaining_total (on_reset shuffle cards st).1
      = total_targets (on_reset shuffle cards st).1 ∧
    (on_reset shuffle cards st).1.drawn_indexes = [] ∧
    (∀ s, (on_reset shuffle cards st).1.redraw_used s = false) ∧
    (on_reset shuffle cards st).2 = [Scope.all] :=
  ⟨rfl, rfl, fun _ => rfl, rfl⟩

/-- C8: startup restore accepts a stored snapshot only when the stored
`cards_len` equals the live catalog length and every stored drawn index is
within the catalog's bounds; on any rejection (including an absent or
malformed file, modelled by `none`) `bootstrap` is exactly the fresh-build
state, whose drawn sequence is empty — no partial restore survives. -/
theorem C8_snapshot_validation (cards : List Card) (stored : Option SessionData)
    (shuffle : String → List Nat → List Nat) :
    ((try_load_session cards stored initState).1 = true →
      ∃ d, stored = some d ∧ d.cards_len = some (cards.length : Int) ∧
        ∀ i ∈ d.drawn_indexes, 0 ≤ i ∧ i < (cards.length : Int)) ∧
    ((try_load_session cards stored initState).1 = false →
      bootstrap cards stored shuffle = build_suits shuffle cards ∧
      (bootstrap cards stored shuffle).drawn_indexes = []) := by
  constructor
  · intro htrue
    cases stored with
    | none => exact absurd htrue (by simp [try_load_session])
    | some d =>
      unfold try_load_session at htrue
      dsimp only at htrue
      by_cases hlen : d.cards_len ≠ some (cards.length : Int)
      · rw [if_pos hlen] at htrue
        exact absurd htrue (by simp)
      · refine ⟨d, rfl, not_not.mp hlen, ?_⟩
        rw [if_neg hlen] at htrue
        cases hany : d.drawn_indexes.any
            (fun i => decide (i < 0 ∨ (cards.length : Int) ≤ i)) with
        | true =>
          rw [hany] at htrue
          simp at htrue
        | false =>
          intro i hi
          have hnb := List.any_eq_false.mp hany i hi
          simp only [decide_eq_true_eq] at hnb
          push_neg at hnb
          exact ⟨hnb.1, hnb.2⟩
  · intro hfalse
    have hb : bootstrap cards stored shuffle = build_suits shuffle cards := by
      simp only [bootstrap, hfalse]
      simp
    refine ⟨hb, ?_⟩
    rw [hb]
    rfl

/-- A stored snapshot whose `cards_len` does not match the live catalog. -/
def storedBad : SessionData :=
  { drawn_indexes := []
    suit_to_indexes := []
    suit_drawn_pos := []
    redraw_used := []
    current_step := 0
    cards_len := some 5 }

/-- Witness for C8: a snapshot recorded for a 5-card catalog is rejected
against the 1-card catalog and bootstrap falls through to the fresh build. -/
theorem C8_snapshot_validation_witness :
    (try_load_session cardsA (some storedBad) initState).1 = false ∧
    bootstrap cardsA (some storedBad) idShuffle = build_suits idShuffle cardsA ∧
    (bootstrap cardsA (some storedBad) idShuffle).drawn_indexes = [] :=
  ⟨by decide,
    ((C8_snapshot_validation cardsA (some storedBad) idShuffle).2 (by decide)).1,
    ((C8_snapshot_validation cardsA (some storedBad) idShuffle).2 (by decide)).2⟩

/-- C9: the inbound `redraw` payload handling: a non-dict payload is dropped
with no state change and no emission; a dict payload triggers the redraw
body on its category string stripped and upper-cased; a dict with an absent
or falsy category field, or one whose normalized category is not
redraw-eligible, is a silent no-op. -/
theorem C9_redraw_payload (st : GameState) :
    on_redraw Payload.notDict st = (st, []) ∧
    (∀ f : Option String,
      on_redraw (Payload.dict f) st = redraw_suit (pyUpper (pyStrip (f.getD ""))) st) ∧
    on_redraw (Payload.dict none) st = (st, []) ∧
    (∀ s : String, pyUpper (pyStrip s) ∉ ELIGIBLE_REDRAW →
      on_redraw (Payload.dict (some s)) st = (st, [])) := by
  refine ⟨rfl, fun f => rfl, ?_, ?_⟩
  · show redraw_suit (pyUpper (pyStrip "")) st = (st, [])
    exact redraw_noop st _ (Or.inl (by decide))
  · intro s hsne
    show redraw_suit (pyUpper (pyStrip s)) st = (st, [])
    exact redraw_noop st _ (Or.inl hsne)

/-- Witness for C9: the payload string " platform " normalizes to PLATFORM,
which is not redraw-eligible, so the event is ignored; a non-dict payload is
ignored as well. -/
theorem C9_redraw_payload_witness :
    pyUpper (pyStrip " platform ") ∉ ELIGIBLE_REDRAW ∧
    on_redraw (Payload.dict (some " platform ")) exState = (exState, []) ∧
    on_redraw Payload.notDict exState = (exState, []) :=
  ⟨by decide,
    (C9_redraw_payload exState).2.2.2 " platform " (by decide),
    (C9_redraw_payload exState).1⟩

/-- C10: in every state reachable from a fresh build by draws, redraws and
resets, the drawn entries are pairwise distinct catalog indexes, no drawn
index sits in any pool, and pools only ever shrink under draw and redraw —
so an index removed by a draw or replaced by a redraw can never re-enter a
pool, and the same card is never presented twice within a session. -/
theorem C10_no_repeats (cards : List Card) (st : GameState)
    (h : Reachable cards st) :
    st.drawn_indexes.Nodup ∧
    (∀ i ∈ st.drawn_indexes, i < cards.length) ∧
    (∀ i ∈ st.drawn_indexes, ∀ s, i ∉ st.suit_to_indexes s) ∧
    (∀ t, ((on_draw st).1.suit_to_indexes t).Sublist (st.suit_to_indexes t)) ∧
    (∀ (p : Payload) (t : String),
      ((on_redraw p st).1.suit_to_indexes t).Sublist (st.suit_to_indexes t)) := by
  obtain ⟨hnd, hbound, hoff, -⟩ := reachable_inv h
  refine ⟨(List.nodup_append.mp hnd).1, ?_, ?_,
    fun t => draw_pools_sublist st t, fun p t => on_redraw_pools_sublist p st t⟩
  · intro i hi
    exact hbound i (List.mem_append_left _ hi)
  · intro i hi s his
    by_cases hsm : s ∈ SUIT_ORDER
    · have hjoin : i ∈ poolsJoin st :=
        List.mem_flatten.mpr ⟨st.suit_to_indexes s, List.mem_map_of_mem _ hsm, his⟩
      exact (List.disjoint_of_nodup_append hnd) hi hjoin
    · rw [hoff s hsm] at his
      exact absurd his (List.not_mem_nil i)

/-- Witness for C10 at a concrete reachable state: the state after one draw
on the catalog with one TOUCHSTONE and two TOOL cards. -/
theorem C10_no_repeats_witness :
    Reachable cardsAT (on_draw (build_suits idShuffle cardsAT)).1 ∧
    ((on_draw (build_suits idShuffle cardsAT)).1.drawn_indexes.Nodup ∧
    (∀ i ∈ (on_draw (build_suits idShuffle cardsAT)).1.drawn_indexes, i < cardsAT.length) ∧
    (∀ i ∈ (on_draw (build_suits idShuffle cardsAT)).1.drawn_indexes,
      ∀ s, i ∉ (on_draw (build_suits idShuffle cardsAT)).1.suit_to_indexes s) ∧
    (∀ t, ((on_draw (on_draw (build_suits idShuffle cardsAT)).1).1.suit_to_indexes t).Sublist
      ((on_draw (build_suits idShuffle cardsAT)).1.suit_to_indexes t)) ∧
    (∀ (p : Payload) (t : String),
      ((on_redraw p (on_draw (build_suits idShuffle cardsAT)).1).1.suit_to_indexes t).Sublist
        ((on_draw (build_suits idShuffle cardsAT)).1.suit_to_indexes t))) :=
  ⟨Reachable.draw (Reachable.build idShuffle (fun _ _ => List.Perm.refl _)),
    C10_no_repeats cardsAT _
      (Reachable.draw (Reachable.build idShuffle (fun _ _ => List.Perm.refl _)))⟩
